import Mathlib

/-!
Shallow embedding of the movie-recommendation engine
(`Movie Recommendation System.py`): the `RatingRegister` store and the
`MovieRecommendation` recommender, together with theorems checking the
specification's claims about them.

Python dictionaries are modelled as association lists keyed by `Nat`
identifiers (insertion order preserved, update-in-place on existing keys),
Python lists as Lean lists, the `MovieRating` enum as an inductive with a
`value` projection, and the float `inf` used as an "infinite dissimilarity"
sentinel as the `none` case of `Option Nat`.  Rating averages, computed by
true division in the source, are modelled exactly in `ℚ`.
-/

set_option maxHeartbeats 1000000

/-- Movies: `Movie(id, title)`; immutable, identity given by `id`. -/
structure Movie where
  id : Nat
  title : String
deriving DecidableEq, Repr

/-- Users: `User(id, name)`; immutable, identity given by `id`. -/
structure User where
  id : Nat
  name : String
deriving DecidableEq, Repr

/-- The `MovieRating` enum of the source, `NOT_RATED = 0` through `FIVE = 5`. -/
inductive MovieRating where
  | NOT_RATED
  | ONE
  | TWO
  | THREE
  | FOUR
  | FIVE
deriving DecidableEq, Repr

/-- `MovieRating.value`: the underlying ordinal of each enum member. -/
def MovieRating.value : MovieRating → Nat
  | .NOT_RATED => 0
  | .ONE => 1
  | .TWO => 2
  | .THREE => 3
  | .FOUR => 4
  | .FIVE => 5

/-- Lookup in an association list (Python `d[k]` / `d.get(k)`). -/
def lookupA {α : Type} (k : Nat) : List (Nat × α) → Option α
  | [] => none
  | (k', v) :: rest => if k' = k then some v else lookupA k rest

/-- Store a value in an association list (Python `d[k] = v`): update in
place when the key exists, append at the end otherwise. -/
def setA {α : Type} (k : Nat) (v : α) : List (Nat × α) → List (Nat × α)
  | [] => [(k, v)]
  | (k', v') :: rest => if k' = k then (k, v) :: rest else (k', v') :: setA k v rest

/-- The `RatingRegister` state: the two dictionaries and the two
insertion-ordered lists of distinct movies and users, exactly the four
fields initialised in `RatingRegister.__init__`. -/
structure RatingRegister where
  user_movies : List (Nat × List Movie)
  movie_ratings : List (Nat × List (Nat × MovieRating))
  movies : List Movie
  users : List User
deriving DecidableEq, Repr

/-- The freshly constructed, empty register. -/
def emptyRegister : RatingRegister := ⟨[], [], [], []⟩

/-- First half of `add_rating`: register the movie when its id is new
(fresh empty rating dict, append to the movie list). -/
def ensureMovie (st : RatingRegister) (movie : Movie) : RatingRegister :=
  if (lookupA movie.id st.movie_ratings).isSome then st
  else { st with movie_ratings := st.movie_ratings ++ [(movie.id, [])],
                 movies := st.movies ++ [movie] }

/-- Second half of `add_rating`'s registration: register the user when the
id is new (fresh empty movie list, append to the user list). -/
def ensureUser (st : RatingRegister) (user : User) : RatingRegister :=
  if (lookupA user.id st.user_movies).isSome then st
  else { st with user_movies := st.user_movies ++ [(user.id, [])],
                 users := st.users ++ [user] }

/-- `RatingRegister.add_rating(user, movie, rating)`: register movie and
user if new, append `movie` to the user's movie list (unconditionally, no
dedup), and set `movie_ratings[movie.id][user.id] = rating` (overwrite). -/
def RatingRegister.add_rating (st : RatingRegister) (user : User) (movie : Movie)
    (rating : MovieRating) : RatingRegister :=
  let st1 := ensureMovie st movie
  let st2 := ensureUser st1 user
  { st2 with
    user_movies :=
      setA user.id (((lookupA user.id st2.user_movies).getD []) ++ [movie]) st2.user_movies,
    movie_ratings :=
      setA movie.id (setA user.id rating ((lookupA movie.id st2.movie_ratings).getD []))
        st2.movie_ratings }

/-- `RatingRegister.get_users`. -/
def RatingRegister.get_users (st : RatingRegister) : List User := st.users

/-- `RatingRegister.get_movies`. -/
def RatingRegister.get_movies (st : RatingRegister) : List Movie := st.movies

/-- `RatingRegister.get_user_movies`: `self._user_movies.get(user.get_id(), [])`. -/
def RatingRegister.get_user_movies (st : RatingRegister) (user : User) : List Movie :=
  (lookupA user.id st.user_movies).getD []

/-- `RatingRegister.get_movie_ratings`: `self._movie_ratings.get(movie.get_id(), {})`. -/
def RatingRegister.get_movie_ratings (st : RatingRegister) (movie : Movie) :
    List (Nat × MovieRating) :=
  (lookupA movie.id st.movie_ratings).getD []

/-- `RatingRegister.get_average_rating`: `NOT_RATED.value` (that is, `0`)
when the movie id is absent from `movie_ratings`, otherwise the sum of the
stored rating values divided by their number.  The source divides Python
ints; the quotient is modelled exactly in `ℚ`. -/
def RatingRegister.get_average_rating (st : RatingRegister) (movie : Movie) : ℚ :=
  match lookupA movie.id st.movie_ratings with
  | none => (MovieRating.NOT_RATED.value : ℚ)
  | some ratings => ((ratings.map (fun p => (p.2.value : ℚ))).sum) / (ratings.length : ℚ)

/-- The rating value the register holds for `movie` by user id `uid`,
defaulting to `NOT_RATED` when absent: the source's
`get_movie_ratings(movie).get(uid, MovieRating.NOT_RATED).value`. -/
def ratingValue (st : RatingRegister) (movie : Movie) (uid : Nat) : Nat :=
  ((lookupA uid (st.get_movie_ratings movie)).getD .NOT_RATED).value

/-- The deduplicated list of movies rated by both users: the source's
`set(get_user_movies(user1)) & set(get_user_movies(user2))` (a Python set of
movies, modelled as a duplicate-free list). -/
def commonMovies (st : RatingRegister) (u1 u2 : User) : List Movie :=
  (st.get_user_movies u1).dedup.filter (fun m => m ∈ st.get_user_movies u2)

/-- The sum, over the common movies, of the absolute difference of the two
stored rating values: the `sum(abs(... - ...) for movie in common_movies)`
of `_calculate_similarity`. -/
def dissimSum (st : RatingRegister) (u1 u2 : User) : Nat :=
  ((commonMovies st u1 u2).map
    (fun m => Nat.dist (ratingValue st m u1.id) (ratingValue st m u2.id))).sum

/-- `MovieRecommendation._calculate_similarity`: the dissimilarity sum,
except that `sum(...) or float("inf")` yields infinity (modelled as `none`)
whenever the sum is `0` — in particular, but not only, when the two users
share no rated movie. -/
def calculate_similarity (st : RatingRegister) (u1 u2 : User) : Option Nat :=
  let s := dissimSum st u1 u2
  if s = 0 then none else some s

/-- Comparison `score < lowest_score` on scores where `none` stands for the
float `inf`: `inf` is below nothing, and every finite score is below `inf`. -/
def scoreLt : Option Nat → Option Nat → Bool
  | none, _ => false
  | some _, none => true
  | some a, some b => decide (a < b)

/-- `MovieRecommendation._find_unwatched_movie`: scan the reviewer's rated
movies in order, keeping the first movie not rated by `user` whose reviewer
rating strictly exceeds the running best, which starts at `0`. -/
def find_unwatched_movie (st : RatingRegister) (user reviewer : User) : Option Movie :=
  let user_movies := st.get_user_movies user
  let reviewer_movies := st.get_user_movies reviewer
  (reviewer_movies.foldl
    (fun acc movie =>
      if movie ∉ user_movies ∧ acc.2 < ratingValue st movie reviewer.id then
        (some movie, ratingValue st movie reviewer.id)
      else acc)
    ((none : Option Movie), 0)).1

/-- `MovieRecommendation._recommend_for_existing_user`: scan all users,
skipping `user` itself; whenever a reviewer's similarity score is strictly
below the running lowest (initially `inf`), remember that score and that
reviewer's best unwatched movie.  Returns the final best movie, if any. -/
def recommend_for_existing_user (st : RatingRegister) (user : User) : Option Movie :=
  (st.get_users.foldl
    (fun acc reviewer =>
      if reviewer.id = user.id then acc
      else
        let score := calculate_similarity st user reviewer
        if scoreLt score acc.2 then (find_unwatched_movie st user reviewer, score)
        else acc)
    ((none : Option Movie), (none : Option Nat))).1

/-- Python's `max(xs, key := f, default := None)`: `None` on an empty list,
otherwise the fold that replaces the current best only on strict
improvement, so the first maximum wins ties. -/
def pyMax (f : Movie → ℚ) : List Movie → Option Movie
  | [] => none
  | x :: xs => some (xs.foldl (fun b a => if f b < f a then a else b) x)

/-- `MovieRecommendation._recommend_for_new_user`: `max` over the catalog
keyed by average rating.  Note that the source returns the `Movie` object
itself here, not its title. -/
def recommend_for_new_user (st : RatingRegister) : Option Movie :=
  pyMax (st.get_average_rating) st.get_movies

/-- The possible results of `recommend_movie` as the source actually
returns them: `None`, a `Movie` object (new-user path), or a title string
(existing-user path). -/
inductive RecResult where
  | none
  | movie (m : Movie)
  | title (s : String)
deriving DecidableEq, Repr

/-- `MovieRecommendation.recommend_movie`: the cold-start path when the
user's movie list is empty (falsy), otherwise the similarity path, whose
final `best_movie.get_title() if best_movie else None` produces a title. -/
def recommend_movie (st : RatingRegister) (user : User) : RecResult :=
  if st.get_user_movies user = [] then
    match recommend_for_new_user st with
    | Option.none => .none
    | some m => .movie m
  else
    match recommend_for_existing_user st user with
    | Option.none => .none
    | some m => .title m.title

/-- One `add_rating` event. -/
def RatingEvent : Type := User × Movie × MovieRating

/-- Replay a list of `add_rating` calls from a starting state. -/
def applyTrace (st : RatingRegister) (tr : List RatingEvent) : RatingRegister :=
  tr.foldl (fun s e => s.add_rating e.1 e.2.1 e.2.2) st

/-- Reachability: the states produced from the empty register by some
sequence of `add_rating` calls. -/
def Reachable (st : RatingRegister) : Prop :=
  ∃ tr, st = applyTrace emptyRegister tr

/-! Identification of the two first-max-wins scans with `List.argmax`. -/

theorem foldl_argAux_some {α β : Type} [Preorder β]
    [DecidableRel (fun a b : β => a < b)] (f : α → β) :
    ∀ (l : List α) (x : α),
      l.foldl (List.argAux fun b c => f c < f b) (some x) =
        some (l.foldl (fun b a => if f b < f a then a else b) x) := by
  intro l
  induction l with
  | nil => intro x; rfl
  | cons a l ih =>
    intro x
    rw [List.foldl_cons, List.foldl_cons]
    have hstep : List.argAux (fun b c => f c < f b) (some x) a =
        some (if f x < f a then a else x) := by
      rw [List.argAux]
      by_cases h : f x < f a <;> simp [h]
    rw [hstep, ih]

/-- Python's first-max-wins `max` is Mathlib's `List.argmax`. -/
theorem pyMax_eq_argmax (f : Movie → ℚ) (l : List Movie) :
    pyMax f l = List.argmax f l := by
  cases l with
  | nil => rfl
  | cons x xs =>
    rw [pyMax, List.argmax, List.foldl_cons]
    rw [show List.argAux (fun b c => f c < f b) none x = some x from rfl]
    rw [foldl_argAux_some]

/-- The strictly-improving scan of `_find_unwatched_movie`, started from an
arbitrary consistent accumulator, is the `argAux` fold over the movies that
survive the unwatched-and-positive filter. -/
theorem find_unwatched_aux (st : RatingRegister) (user reviewer : User) :
    ∀ (l : List Movie) (acc : Option Movie × Nat),
      (acc = (none, 0) ∨
        ∃ b, acc = (some b, ratingValue st b reviewer.id) ∧
          0 < ratingValue st b reviewer.id) →
      (l.foldl
        (fun acc movie =>
          if movie ∉ st.get_user_movies user ∧ acc.2 < ratingValue st movie reviewer.id then
            (some movie, ratingValue st movie reviewer.id)
          else acc) acc).1 =
      (l.filter
        (fun m => decide (m ∉ st.get_user_movies user) &&
          decide (0 < ratingValue st m reviewer.id))).foldl
        (List.argAux fun b c =>
          ratingValue st c reviewer.id < ratingValue st b reviewer.id) acc.1 := by
  intro l
  induction l with
  | nil => intro acc _; rfl
  | cons m l ih =>
    intro acc hacc
    simp only [List.foldl_cons]
    by_cases hmem : m ∈ st.get_user_movies user
    · rw [List.filter_cons_of_neg (by simp [hmem])]
      rw [if_neg (show ¬(m ∉ st.get_user_movies user ∧
            acc.2 < ratingValue st m reviewer.id) from fun hc => hc.1 hmem)]
      exact ih acc hacc
    · by_cases hf : 0 < ratingValue st m reviewer.id
      · rw [List.filter_cons_of_pos (by simp [hmem, hf])]
        rw [List.foldl_cons]
        rcases hacc with h0 | ⟨b, hb, hbpos⟩
        · subst h0
          rw [if_pos (show m ∉ st.get_user_movies user ∧
              ((none : Option Movie), (0 : Nat)).2 < ratingValue st m reviewer.id from
              ⟨hmem, hf⟩)]
          rw [show List.argAux
              (fun b c => ratingValue st c reviewer.id < ratingValue st b reviewer.id)
              (((none : Option Movie), (0 : Nat)).1) m = some m from rfl]
          exact ih (some m, ratingValue st m reviewer.id) (Or.inr ⟨m, rfl, hf⟩)
        · subst hb
          have hstep : List.argAux
              (fun b c => ratingValue st c reviewer.id < ratingValue st b reviewer.id)
              ((some b, ratingValue st b reviewer.id).1) m =
              if ratingValue st b reviewer.id < ratingValue st m reviewer.id
              then some m else some b := rfl
          rw [hstep]
          by_cases hlt : ratingValue st b reviewer.id < ratingValue st m reviewer.id
          · rw [if_pos (show m ∉ st.get_user_movies user ∧
                (some b, ratingValue st b reviewer.id).2 < ratingValue st m reviewer.id from
                ⟨hmem, hlt⟩), if_pos hlt]
            exact ih (some m, ratingValue st m reviewer.id) (Or.inr ⟨m, rfl, hf⟩)
          · rw [if_neg (show ¬(m ∉ st.get_user_movies user ∧
                (some b, ratingValue st b reviewer.id).2 < ratingValue st m reviewer.id) from
                fun hc => hlt hc.2), if_neg hlt]
            exact ih _ (Or.inr ⟨b, rfl, hbpos⟩)
      · rw [List.filter_cons_of_neg (by simp [hf])]
        have hm0 : ratingValue st m reviewer.id = 0 := Nat.eq_zero_of_not_pos hf
        rw [if_neg (show ¬(m ∉ st.get_user_movies user ∧
            acc.2 < ratingValue st m reviewer.id) from by rintro ⟨-, hc⟩; omega)]
        exact ih acc hacc

/-- `_find_unwatched_movie` is `argmax` of the reviewer's rating over the
reviewer's movies not rated by the user and rated above `0`. -/
theorem find_unwatched_movie_eq_argmax (st : RatingRegister) (user reviewer : User) :
    find_unwatched_movie st user reviewer =
      List.argmax (fun m => ratingValue st m reviewer.id)
        ((st.get_user_movies reviewer).filter
          (fun m => decide (m ∉ st.get_user_movies user) &&
            decide (0 < ratingValue st m reviewer.id))) := by
  rw [find_unwatched_movie, List.argmax]
  exact find_unwatched_aux st user reviewer (st.get_user_movies reviewer)
    ((none : Option Movie), 0) (Or.inl rfl)

/-- When every other user has infinite dissimilarity, the reviewer scan of
`_recommend_for_existing_user` never leaves its initial state. -/
theorem recommend_existing_fold_none (st : RatingRegister) (user : User) :
    ∀ l : List User,
      (∀ r ∈ l, r.id ≠ user.id → calculate_similarity st user r = none) →
      (l.foldl
        (fun acc reviewer =>
          if reviewer.id = user.id then acc
          else
            let score := calculate_similarity st user reviewer
            if scoreLt score acc.2 then (find_unwatched_movie st user reviewer, score)
            else acc)
        ((none : Option Movie), (none : Option Nat))) = (none, none) := by
  intro l
  induction l with
  | nil => intro _; rfl
  | cons r l ih =>
    intro h
    rw [List.foldl_cons]
    have hstep :
        (if r.id = user.id then ((none : Option Movie), (none : Option Nat))
         else
           let score := calculate_similarity st user r
           if scoreLt score (none : Option Nat) then (find_unwatched_movie st user r, score)
           else (none, none)) = ((none : Option Movie), (none : Option Nat)) := by
      by_cases hr : r.id = user.id
      · rw [if_pos hr]
      · rw [if_neg hr]
        have hs : calculate_similarity st user r = none := h r (by simp) hr
        simp [hs, scoreLt]
    rw [hstep]
    exact ih (fun r' hr' => h r' (by simp [hr']))

/-! The dissimilarity sum, spelled as a sum over the set of shared movies. -/

/-- The specification's dissimilarity: the sum, over the (finite) set of
movies rated by both users, of the absolute rating difference. -/
def specDissim (st : RatingRegister) (u1 u2 : User) : Nat :=
  ((st.get_user_movies u1).toFinset ∩ (st.get_user_movies u2).toFinset).sum
    (fun m => Nat.dist (ratingValue st m u1.id) (ratingValue st m u2.id))

theorem dissimSum_eq_specDissim (st : RatingRegister) (u1 u2 : User) :
    dissimSum st u1 u2 = specDissim st u1 u2 := by
  rw [dissimSum, specDissim, commonMovies]
  have hnd : ((st.get_user_movies u1).dedup.filter
      (fun m => m ∈ st.get_user_movies u2)).Nodup :=
    (List.nodup_dedup _).filter _
  rw [← List.sum_toFinset _ hnd]
  congr 1
  ext a
  simp [List.mem_filter, List.mem_dedup, List.mem_toFinset]

/-- Alice. -/
def alice : User := ⟨1, "Alice"⟩

/-- Bob. -/
def bob : User := ⟨2, "Bob"⟩

/-- Charlie, who never rates anything. -/
def charlie : User := ⟨3, "Charlie"⟩

/-- Inception. -/
def inception : Movie := ⟨1, "Inception"⟩

/-- Titanic. -/
def titanic : Movie := ⟨2, "Titanic"⟩

/-- The Matrix. -/
def matrix : Movie := ⟨3, "The Matrix"⟩

/-- The four `add_rating` calls of the demo, in order. -/
def demoTrace : List RatingEvent :=
  [(alice, inception, .FIVE), (alice, titanic, .TWO),
   (bob, titanic, .THREE), (bob, matrix, .FOUR)]

/-- The register after the demo's four ratings. -/
def demoState : RatingRegister := applyTrace emptyRegister demoTrace

/-- A register in which Alice and Bob rate the same movie identically, so
their rating difference sums to zero. -/
def simZeroState : RatingRegister :=
  applyTrace emptyRegister [(alice, inception, .THREE), (bob, inception, .THREE)]

/-- A register in which Alice and Bob have rated, but share no movie. -/
def noOverlapState : RatingRegister :=
  applyTrace emptyRegister [(alice, inception, .FIVE), (bob, titanic, .THREE)]

/-! Basic lemmas about association lists. -/

theorem lookupA_setA_self {α : Type} (k : Nat) (v : α) (l : List (Nat × α)) :
    lookupA k (setA k v l) = some v := by
  induction l with
  | nil => simp [setA, lookupA]
  | cons p rest ih =>
    by_cases h : p.1 = k
    · simp [setA, h, lookupA]
    · simp [setA, h, lookupA, ih]

theorem lookupA_setA_ne {α : Type} {k k' : Nat} (v : α) (l : List (Nat × α))
    (h : k' ≠ k) : lookupA k' (setA k v l) = lookupA k' l := by
  induction l with
  | nil => simp [setA, lookupA, Ne.symm h]
  | cons p rest ih =>
    by_cases hp : p.1 = k
    · subst hp
      by_cases hq : p.1 = k'
      · exact absurd hq.symm h
      · simp [setA, lookupA, hq, Ne.symm h]
    · simp only [setA, if_neg hp]
      by_cases hq : p.1 = k'
      · simp [lookupA, hq]
      · simp [lookupA, hq, ih]

theorem lookupA_append {α : Type} (k : Nat) (l₁ l₂ : List (Nat × α)) :
    lookupA k (l₁ ++ l₂) = ((lookupA k l₁).rec (lookupA k l₂) (fun v => some v)) := by
  induction l₁ with
  | nil => simp [lookupA]
  | cons p rest ih =>
    by_cases h : p.1 = k
    · simp [lookupA, h]
    · simp [lookupA, h, ih]

theorem setA_ne_nil {α : Type} (k : Nat) (v : α) (l : List (Nat × α)) :
    setA k v l ≠ [] := by
  cases l with
  | nil => simp [setA]
  | cons p rest =>
    by_cases h : p.1 = k <;> simp [setA, h]

/-! Characterisation of `add_rating` through the four fields. -/

theorem user_movies_ensureMovie (st : RatingRegister) (m : Movie) :
    (ensureMovie st m).user_movies = st.user_movies := by
  rw [ensureMovie]; split <;> rfl

theorem users_ensureMovie (st : RatingRegister) (m : Movie) :
    (ensureMovie st m).users = st.users := by
  rw [ensureMovie]; split <;> rfl

theorem movie_ratings_ensureUser (st : RatingRegister) (u : User) :
    (ensureUser st u).movie_ratings = st.movie_ratings := by
  rw [ensureUser]; split <;> rfl

theorem movies_ensureUser (st : RatingRegister) (u : User) :
    (ensureUser st u).movies = st.movies := by
  rw [ensureUser]; split <;> rfl

theorem lookupA_movie_ratings_ensureMovie (st : RatingRegister) (m : Movie) (mid : Nat) :
    lookupA mid (ensureMovie st m).movie_ratings =
      if mid = m.id ∧ (lookupA m.id st.movie_ratings) = none then some []
      else lookupA mid st.movie_ratings := by
  rw [ensureMovie]
  rcases hm : lookupA m.id st.movie_ratings with _ | mm
  · simp only [hm, Option.isSome_none, Bool.false_eq_true, if_false]
    rw [lookupA_append]
    rcases hmid : lookupA mid st.movie_ratings with _ | v
    · by_cases h : mid = m.id
      · subst h; simp [lookupA]
      · simp [lookupA, h, Ne.symm h]
    · simp only [hmid]
      by_cases h : mid = m.id
      · subst h; rw [hm] at hmid; cases hmid
      · simp [h]
  · simp [hm]

theorem lookupA_user_movies_ensureUser (st : RatingRegister) (u : User) (uid : Nat) :
    lookupA uid (ensureUser st u).user_movies =
      if uid = u.id ∧ (lookupA u.id st.user_movies) = none then some []
      else lookupA uid st.user_movies := by
  rw [ensureUser]
  rcases hu : lookupA u.id st.user_movies with _ | l
  · simp only [hu, Option.isSome_none, Bool.false_eq_true, if_false]
    rw [lookupA_append]
    rcases huid : lookupA uid st.user_movies with _ | v
    · by_cases h : uid = u.id
      · subst h; simp [lookupA]
      · simp [lookupA, h, Ne.symm h]
    · simp only [huid]
      by_cases h : uid = u.id
      · subst h; rw [hu] at huid; cases huid
      · simp [h]
  · simp [hu]

/-- `add_rating` seen through `lookupA` on `user_movies`: the acting user's
list gets the movie appended (starting from `[]` when absent), all other
entries are untouched. -/
theorem lookupA_user_movies_add (st : RatingRegister) (u : User) (m : Movie)
    (r : MovieRating) (uid : Nat) :
    lookupA uid (st.add_rating u m r).user_movies =
      if uid = u.id then some (((lookupA u.id st.user_movies).getD []) ++ [m])
      else lookupA uid st.user_movies := by
  rw [RatingRegister.add_rating]
  by_cases h : uid = u.id
  · subst h
    rw [lookupA_setA_self]
    rw [lookupA_user_movies_ensureUser, user_movies_ensureMovie]
    rcases hu : lookupA u.id st.user_movies with _ | l
    · simp [hu]
    · simp [hu]
  · rw [lookupA_setA_ne _ _ h]
    rw [lookupA_user_movies_ensureUser, user_movies_ensureMovie]
    simp [h]

/-- `add_rating` seen through `lookupA` on `movie_ratings`: the rated
movie's per-user dictionary gets the user's entry set (starting from `[]`
when absent), all other entries are untouched. -/
theorem lookupA_movie_ratings_add (st : RatingRegister) (u : User) (m : Movie)
    (r : MovieRating) (mid : Nat) :
    lookupA mid (st.add_rating u m r).movie_ratings =
      if mid = m.id then
        some (setA u.id r ((lookupA m.id st.movie_ratings).getD []))
      else lookupA mid st.movie_ratings := by
  rw [RatingRegister.add_rating]
  by_cases h : mid = m.id
  · subst h
    rw [lookupA_setA_self]
    rw [movie_ratings_ensureUser, lookupA_movie_ratings_ensureMovie]
    rcases hm : lookupA m.id st.movie_ratings with _ | mm
    · simp [hm]
    · simp [hm]
  · rw [lookupA_setA_ne _ _ h]
    rw [movie_ratings_ensureUser, lookupA_movie_ratings_ensureMovie]
    simp [h]

/-- `add_rating` on the catalog list: the movie is appended exactly when
its id was not yet a key of `movie_ratings`. -/
theorem movies_add (st : RatingRegister) (u : User) (m : Movie) (r : MovieRating) :
    (st.add_rating u m r).movies =
      if (lookupA m.id st.movie_ratings).isSome then st.movies else st.movies ++ [m] := by
  rw [RatingRegister.add_rating]
  show (ensureUser (ensureMovie st m) u).movies = _
  rw [movies_ensureUser, ensureMovie]
  split <;> rfl

/-- `add_rating` on the user list: the user is appended exactly when the
id was not yet a key of `user_movies`. -/
theorem users_add (st : RatingRegister) (u : User) (m : Movie) (r : MovieRating) :
    (st.add_rating u m r).users =
      if (lookupA u.id (ensureMovie st m).user_movies).isSome then st.users
      else st.users ++ [u] := by
  rw [RatingRegister.add_rating]
  show (ensureUser (ensureMovie st m) u).users = _
  rw [ensureUser]
  split <;> simp [users_ensureMovie]

theorem lookupA_setA {α : Type} (k k' : Nat) (v : α) (l : List (Nat × α)) :
    lookupA k' (setA k v l) = if k' = k then some v else lookupA k' l := by
  by_cases h : k' = k
  · subst h; simp [lookupA_setA_self]
  · simp [h, lookupA_setA_ne _ _ h]

/-! Bidirectional consistency of the two indexes. -/

/-- `(uid, mid)` appears in the movie-to-user-to-rating map: the movie id
is a key of `movie_ratings` and the user id a key of its dictionary (an
absent movie id behaves as the empty dictionary). -/
def ratedPair (st : RatingRegister) (uid mid : Nat) : Bool :=
  (lookupA uid ((lookupA mid st.movie_ratings).getD [])).isSome

/-- The movie id appears in the user's entry of the user-to-movies index
(an absent user id behaves as the empty list). -/
def indexedPair (st : RatingRegister) (uid mid : Nat) : Bool :=
  ((lookupA uid st.user_movies).getD []).any (fun m => m.id == mid)

/-- Bidirectional consistency of the two indexes of the store. -/
def Consistent (st : RatingRegister) : Prop :=
  ∀ uid mid, ratedPair st uid mid = indexedPair st uid mid

theorem consistent_empty : Consistent emptyRegister := by
  intro uid mid
  rfl

theorem ratedPair_add (st : RatingRegister) (u : User) (m : Movie) (r : MovieRating)
    (uid mid : Nat) :
    ratedPair (st.add_rating u m r) uid mid =
      if mid = m.id then (uid = u.id || ratedPair st uid mid) else ratedPair st uid mid := by
  simp only [ratedPair, lookupA_movie_ratings_add]
  by_cases hm : mid = m.id
  · subst hm
    rw [if_pos rfl, if_pos rfl, Option.getD_some, lookupA_setA]
    by_cases hu : uid = u.id
    · simp [hu]
    · simp [hu]
  · rw [if_neg hm, if_neg hm]

theorem indexedPair_add (st : RatingRegister) (u : User) (m : Movie) (r : MovieRating)
    (uid mid : Nat) :
    indexedPair (st.add_rating u m r) uid mid =
      if uid = u.id then (mid = m.id || indexedPair st uid mid) else indexedPair st uid mid := by
  simp only [indexedPair, lookupA_user_movies_add]
  by_cases hu : uid = u.id
  · subst hu
    rw [if_pos rfl, if_pos rfl, Option.getD_some, List.any_append]
    simp only [List.any_cons, List.any_nil, Bool.or_false, Bool.or_comm]
    by_cases h : m.id = mid
    · simp [h]
    · simp [h, Ne.symm h]
  · rw [if_neg hu, if_neg hu]

/-- `add_rating` preserves bidirectional consistency. -/
theorem consistent_add (st : RatingRegister) (u : User) (m : Movie) (r : MovieRating)
    (h : Consistent st) : Consistent (st.add_rating u m r) := by
  intro uid mid
  rw [ratedPair_add, indexedPair_add, h uid mid]
  by_cases hm : mid = m.id <;> by_cases hu : uid = u.id <;>
    simp [hm, hu]

theorem applyTrace_cons (st : RatingRegister) (e : RatingEvent) (tr : List RatingEvent) :
    applyTrace st (e :: tr) = applyTrace (st.add_rating e.1 e.2.1 e.2.2) tr := rfl

theorem applyTrace_append (st : RatingRegister) (tr₁ tr₂ : List RatingEvent) :
    applyTrace st (tr₁ ++ tr₂) = applyTrace (applyTrace st tr₁) tr₂ :=
  List.foldl_append _ _ _ _

theorem applyTrace_singleton (st : RatingRegister) (e : RatingEvent) :
    applyTrace st [e] = st.add_rating e.1 e.2.1 e.2.2 := rfl

theorem consistent_applyTrace (st : RatingRegister) (tr : List RatingEvent)
    (h : Consistent st) : Consistent (applyTrace st tr) := by
  induction tr generalizing st with
  | nil => exact h
  | cons e tr ih =>
    rw [applyTrace_cons]
    exact ih _ (consistent_add _ _ _ _ h)

/-! Non-emptiness of every per-movie rating dictionary. -/

/-- Every movie id present in `movie_ratings` maps to a non-empty per-user
dictionary. -/
def NonemptyMovieMaps (st : RatingRegister) : Prop :=
  ∀ mid mm, lookupA mid st.movie_ratings = some mm → mm ≠ []

theorem nonemptyMovieMaps_empty : NonemptyMovieMaps emptyRegister := by
  intro mid mm h
  cases h

theorem nonemptyMovieMaps_add (st : RatingRegister) (u : User) (m : Movie)
    (r : MovieRating) (h : NonemptyMovieMaps st) :
    NonemptyMovieMaps (st.add_rating u m r) := by
  intro mid mm hmm
  rw [lookupA_movie_ratings_add] at hmm
  by_cases hm : mid = m.id
  · rw [if_pos hm] at hmm
    cases hmm
    exact setA_ne_nil _ _ _
  · rw [if_neg hm] at hmm
    exact h mid mm hmm

theorem nonemptyMovieMaps_applyTrace (st : RatingRegister) (tr : List RatingEvent)
    (h : NonemptyMovieMaps st) : NonemptyMovieMaps (applyTrace st tr) := by
  induction tr generalizing st with
  | nil => exact h
  | cons e tr ih =>
    rw [applyTrace_cons]
    exact ih _ (nonemptyMovieMaps_add _ _ _ _ h)

/-! The per-(user, movie) entry of a reachable state is the last rating the
trace wrote for that pair. -/

/-- Does an event rate movie `mid` by user `uid`? -/
def matchesUM (uid mid : Nat) (e : RatingEvent) : Bool :=
  e.1.id == uid && e.2.1.id == mid

/-- The last rating value a trace writes for the pair `(uid, mid)`. -/
def lastRating (tr : List RatingEvent) (uid mid : Nat) : Option MovieRating :=
  ((tr.filter (matchesUM uid mid)).getLast?).map (fun e => e.2.2)

theorem lastRating_append_single (tr : List RatingEvent) (e : RatingEvent)
    (uid mid : Nat) :
    lastRating (tr ++ [e]) uid mid =
      if matchesUM uid mid e then some e.2.2 else lastRating tr uid mid := by
  rw [lastRating, List.filter_append]
  by_cases h : matchesUM uid mid e
  · simp [h, lastRating]
  · simp [h, lastRating]

/-- In the state reached by a trace, the rating stored for user `uid` on
movie `mid` is exactly the last rating the trace wrote for that pair. -/
theorem ratingEntry_applyTrace (tr : List RatingEvent) (uid mid : Nat) :
    lookupA uid ((lookupA mid (applyTrace emptyRegister tr).movie_ratings).getD [])
      = lastRating tr uid mid := by
  induction tr using List.reverseRecOn with
  | nil => rfl
  | append_singleton tr e ih =>
    rw [applyTrace_append, applyTrace_singleton, lastRating_append_single]
    rw [lookupA_movie_ratings_add]
    by_cases hm : mid = e.2.1.id
    · subst hm
      rw [if_pos rfl, Option.getD_some, lookupA_setA]
      by_cases hu : uid = e.1.id
      · have hmt : matchesUM uid e.2.1.id e = true := by
          simp [matchesUM, hu]
        rw [if_pos hu, hmt, if_pos rfl]
      · have hmt : matchesUM uid e.2.1.id e = false := by
          simp [matchesUM, Ne.symm hu]
        rw [if_neg hu, hmt]
        simp only [Bool.false_eq_true, if_false]
        exact ih
    · have hmt : matchesUM uid mid e = false := by
        simp only [matchesUM, Bool.and_eq_false_iff]
        right
        simp [Ne.symm hm]
      rw [if_neg hm, hmt]
      simp only [Bool.false_eq_true, if_false]
      exact ih

/-- A movie id no event of the trace ever rates is absent from
`movie_ratings` in the reached state. -/
theorem lookupA_movie_ratings_eq_none (tr : List RatingEvent) (mid : Nat)
    (h : ∀ e ∈ tr, e.2.1.id ≠ mid) :
    lookupA mid (applyTrace emptyRegister tr).movie_ratings = none := by
  induction tr using List.reverseRecOn with
  | nil => rfl
  | append_singleton tr e ih =>
    rw [applyTrace_append, applyTrace_singleton, lookupA_movie_ratings_add]
    have hne : mid ≠ e.2.1.id := fun hc => h e (by simp) hc.symm
    rw [if_neg hne]
    exact ih (fun e' he' => h e' (by simp [he']))

/-! The average rating of a reachable state, spelled out from the trace. -/

theorem mem_map_fst_iff {α : Type} (k : Nat) (mm : List (Nat × α)) :
    k ∈ mm.map Prod.fst ↔ (lookupA k mm).isSome := by
  induction mm with
  | nil => simp [lookupA]
  | cons p rest ih =>
    rw [List.map_cons, List.mem_cons, lookupA]
    by_cases h : p.1 = k
    · simp [h, eq_comm]
    · simp [h, Ne.symm h, ih]

theorem nodup_map_fst_setA {α : Type} (k : Nat) (v : α) (mm : List (Nat × α))
    (h : (mm.map Prod.fst).Nodup) : ((setA k v mm).map Prod.fst).Nodup := by
  induction mm with
  | nil => simp [setA]
  | cons p rest ih =>
    rw [List.map_cons, List.nodup_cons] at h
    by_cases hp : p.1 = k
    · rw [setA, if_pos hp, List.map_cons, List.nodup_cons]
      exact ⟨hp ▸ h.1, h.2⟩
    · rw [setA, if_neg hp, List.map_cons, List.nodup_cons]
      refine ⟨?_, ih h.2⟩
      rw [mem_map_fst_iff, lookupA_setA_ne _ _ hp, ← mem_map_fst_iff]
      exact h.1

/-- Every per-movie dictionary of the store has duplicate-free keys. -/
def NodupMovieKeys (st : RatingRegister) : Prop :=
  ∀ mid mm, lookupA mid st.movie_ratings = some mm → (mm.map Prod.fst).Nodup

theorem nodupMovieKeys_empty : NodupMovieKeys emptyRegister := by
  intro mid mm h
  cases h

theorem nodupMovieKeys_add (st : RatingRegister) (u : User) (m : Movie)
    (r : MovieRating) (h : NodupMovieKeys st) : NodupMovieKeys (st.add_rating u m r) := by
  intro mid mm hmm
  rw [lookupA_movie_ratings_add] at hmm
  by_cases hm : mid = m.id
  · rw [if_pos hm] at hmm
    cases hmm
    rcases hold : lookupA m.id st.movie_ratings with _ | old
    · simp [setA]
    · simp only [Option.getD_some]
      exact nodup_map_fst_setA _ _ _ (h _ _ hold)
  · rw [if_neg hm] at hmm
    exact h mid mm hmm

theorem nodupMovieKeys_applyTrace (st : RatingRegister) (tr : List RatingEvent)
    (h : NodupMovieKeys st) : NodupMovieKeys (applyTrace st tr) := by
  induction tr generalizing st with
  | nil => exact h
  | cons e tr ih =>
    rw [applyTrace_cons]
    exact ih _ (nodupMovieKeys_add _ _ _ _ h)

/-- Mapping over the values of an association list with duplicate-free keys
is mapping the lookup over its keys. -/
theorem map_values_eq_map_fst {α β : Type} (f : α → β) (d : α) :
    ∀ mm : List (Nat × α), (mm.map Prod.fst).Nodup →
      mm.map (fun p => f p.2) = (mm.map Prod.fst).map (fun k => f ((lookupA k mm).getD d)) := by
  intro mm
  induction mm with
  | nil => intro _; rfl
  | cons p rest ih =>
    intro h
    rw [List.map_cons, List.nodup_cons] at h
    rw [List.map_cons, List.map_cons, List.map_cons]
    have hhead : lookupA p.1 (p :: rest) = some p.2 := by
      simp [lookupA]
    rw [hhead]
    refine congrArg₂ _ rfl ?_
    rw [ih h.2]
    refine List.map_congr_left ?_
    intro k hk
    have hne : p.1 ≠ k := fun hc => h.1 (hc ▸ hk)
    rw [show lookupA k (p :: rest) = lookupA k rest from by simp [lookupA, hne]]

/-- The (deduplicated) user ids a trace records as raters of movie `mid`. -/
def raters (tr : List RatingEvent) (mid : Nat) : List Nat :=
  ((tr.filter (fun e => e.2.1.id == mid)).map (fun e => e.1.id)).dedup

theorem mem_raters_iff (tr : List RatingEvent) (mid k : Nat) :
    k ∈ raters tr mid ↔ ∃ e ∈ tr, e.2.1.id = mid ∧ e.1.id = k := by
  rw [raters, List.mem_dedup, List.mem_map]
  constructor
  · rintro ⟨e, he, hk⟩
    rw [List.mem_filter] at he
    exact ⟨e, he.1, by simpa using he.2, hk⟩
  · rintro ⟨e, he, hm, hk⟩
    exact ⟨e, List.mem_filter.mpr ⟨he, by simpa using hm⟩, hk⟩

theorem lastRating_isSome_iff (tr : List RatingEvent) (uid mid : Nat) :
    (lastRating tr uid mid).isSome = true ↔
      ∃ e ∈ tr, e.2.1.id = mid ∧ e.1.id = uid := by
  rw [lastRating, Option.isSome_map']
  rw [List.getLast?_isSome]
  rw [Ne, List.filter_eq_nil_iff]
  push_neg
  constructor
  · rintro ⟨e, he, hp⟩
    rw [matchesUM, Bool.and_eq_true, beq_iff_eq, beq_iff_eq] at hp
    exact ⟨e, he, hp.2, hp.1⟩
  · rintro ⟨e, he, hm, hu⟩
    exact ⟨e, he, by rw [matchesUM, Bool.and_eq_true, beq_iff_eq, beq_iff_eq]; exact ⟨hu, hm⟩⟩

/-- The specification's average: the users recorded as raters of the movie,
each weighted by the last value written for them, averaged; `0` with no
raters. -/
def specAverage (tr : List RatingEvent) (m : Movie) : ℚ :=
  if raters tr m.id = [] then 0
  else (((raters tr m.id).map
          (fun uid => (((lastRating tr uid m.id).getD .NOT_RATED).value : ℚ))).sum)
        / ((raters tr m.id).length : ℚ)

/-- In a reachable state, `get_average_rating` is exactly the mean over the
trace's raters of the last value each wrote (and `0` with no raters). -/
theorem get_average_rating_applyTrace (tr : List RatingEvent) (m : Movie) :
    (applyTrace emptyRegister tr).get_average_rating m = specAverage tr m := by
  rcases hl : lookupA m.id (applyTrace emptyRegister tr).movie_ratings with _ | mm
  · have hr : raters tr m.id = [] := by
      rw [List.eq_nil_iff_forall_not_mem]
      intro k hk
      have h1 : (lastRating tr k m.id).isSome = true :=
        (lastRating_isSome_iff tr k m.id).mpr ((mem_raters_iff tr m.id k).mp hk)
      have h2 := ratingEntry_applyTrace tr k m.id
      rw [hl] at h2
      rw [← h2] at h1
      cases h1
    rw [RatingRegister.get_average_rating, hl, specAverage, if_pos hr]
    simp [MovieRating.value]
  · have hnd : (mm.map Prod.fst).Nodup :=
      nodupMovieKeys_applyTrace emptyRegister tr nodupMovieKeys_empty m.id mm hl
    have hval : ∀ k, lookupA k mm = lastRating tr k m.id := by
      intro k
      have h2 := ratingEntry_applyTrace tr k m.id
      rw [hl, Option.getD_some] at h2
      exact h2
    have hperm : (mm.map Prod.fst).Perm (raters tr m.id) := by
      have hnd2 : (raters tr m.id).Nodup := by
        rw [raters]
        exact List.nodup_dedup _
      refine (List.perm_ext_iff_of_nodup hnd hnd2).mpr ?_
      intro k
      rw [mem_map_fst_iff, mem_raters_iff, ← lastRating_isSome_iff, hval k]
    have hnum : mm.map (fun p => (p.2.value : ℚ)) =
        (mm.map Prod.fst).map
          (fun k => (((lastRating tr k m.id).getD .NOT_RATED).value : ℚ)) := by
      rw [map_values_eq_map_fst (fun rt => (rt.value : ℚ)) MovieRating.NOT_RATED mm hnd]
      refine List.map_congr_left ?_
      intro k _
      rw [hval k]
    by_cases hr : raters tr m.id = []
    · rw [hr] at hperm
      have hmm : mm = [] := by simpa using hperm.eq_nil
      subst hmm
      rw [RatingRegister.get_average_rating, hl, specAverage, if_pos hr]
      simp
    · rw [RatingRegister.get_average_rating, hl, specAverage, if_neg hr]
      dsimp only
      have hsum :
          ((mm.map Prod.fst).map
            (fun k => (((lastRating tr k m.id).getD .NOT_RATED).value : ℚ))).sum =
          ((raters tr m.id).map
            (fun k => (((lastRating tr k m.id).getD .NOT_RATED).value : ℚ))).sum :=
        (hperm.map _).sum_eq
      have hlen : mm.length = (raters tr m.id).length := by
        have h3 := hperm.length_eq
        simpa using h3
      rw [hnum, hsum, hlen]

/-! Concrete evaluations on the demo register that involve rational
averages (kernel evaluation stops at `ℚ`, so these are proved by rewriting
the concrete lookups and finishing with `norm_num`). -/

theorem demo_avg_inception : demoState.get_average_rating inception = 5 := by
  rw [RatingRegister.get_average_rating]
  rw [show lookupA inception.id demoState.movie_ratings = some [(1, .FIVE)] from rfl]
  norm_num [MovieRating.value]

theorem demo_avg_titanic : demoState.get_average_rating titanic = 5 / 2 := by
  rw [RatingRegister.get_average_rating]
  rw [show lookupA titanic.id demoState.movie_ratings
      = some [(1, .TWO), (2, .THREE)] from rfl]
  norm_num [MovieRating.value]

theorem demo_avg_matrix : demoState.get_average_rating matrix = 4 := by
  rw [RatingRegister.get_average_rating]
  rw [show lookupA matrix.id demoState.movie_ratings = some [(2, .FOUR)] from rfl]
  norm_num [MovieRating.value]

theorem demo_cold_start : recommend_for_new_user demoState = some inception := by
  rw [recommend_for_new_user]
  rw [show demoState.get_movies = [inception, titanic, matrix] from rfl]
  rw [pyMax]
  simp only [List.foldl_cons, List.foldl_nil]
  rw [if_neg (show ¬(demoState.get_average_rating inception <
      demoState.get_average_rating titanic) from by
    rw [demo_avg_inception, demo_avg_titanic]; norm_num)]
  rw [if_neg (show ¬(demoState.get_average_rating inception <
      demoState.get_average_rating matrix) from by
    rw [demo_avg_inception, demo_avg_matrix]; norm_num)]

/-! Claim theorems. -/

/-- C1 (counterexample): in `simZeroState`, Alice and Bob both rated
Inception (with equal ratings), so they do share a rated movie and the sum
of absolute differences is `0`; yet `_calculate_similarity` returns
infinity (`none`), because `sum(...) or float("inf")` turns a zero sum into
infinity.  This refutes the claim that the score equals the sum and is
infinite exactly when no movie is shared. -/
theorem similarity_infinite_despite_shared_movie :
    commonMovies simZeroState alice bob = [inception]
    ∧ dissimSum simZeroState alice bob = 0
    ∧ calculate_similarity simZeroState alice bob = none := by
  refine ⟨by decide, by decide, by decide⟩

/-- C1 (amended): the dissimilarity score equals the sum, over movies rated
by both users, of the absolute rating difference whenever that sum is
positive; it is positive infinity (`none`) exactly when that sum is zero —
in particular whenever the two users share no rated movie. -/
theorem calculate_similarity_spec (st : RatingRegister) (u1 u2 : User) :
    calculate_similarity st u1 u2 =
      (if specDissim st u1 u2 = 0 then none else some (specDissim st u1 u2))
    ∧ ((st.get_user_movies u1).toFinset ∩ (st.get_user_movies u2).toFinset = ∅ →
        calculate_similarity st u1 u2 = none) := by
  have h1 : calculate_similarity st u1 u2 =
      (if specDissim st u1 u2 = 0 then none else some (specDissim st u1 u2)) := by
    rw [calculate_similarity, dissimSum_eq_specDissim]
  refine ⟨h1, ?_⟩
  intro h
  have h0 : specDissim st u1 u2 = 0 := by
    rw [specDissim, h, Finset.sum_empty]
  rw [h1, if_pos h0]

theorem calculate_similarity_spec_witness :
    (calculate_similarity demoState alice bob =
      (if specDissim demoState alice bob = 0 then none
       else some (specDissim demoState alice bob)))
    ∧ calculate_similarity demoState charlie bob = none :=
  ⟨(calculate_similarity_spec demoState alice bob).1,
   (calculate_similarity_spec demoState charlie bob).2 (by decide)⟩

/-- C2 (code bug): for Charlie, who has no ratings, the cold-start path of
`recommend_movie` returns the `Movie` object for Inception, not the title
string `"Inception"` promised by the `Optional[str]` annotations and the
demo's expected output. -/
theorem recommend_movie_charlie_returns_movie_object :
    recommend_movie demoState charlie = RecResult.movie inception := by
  rw [recommend_movie,
    if_pos (show demoState.get_user_movies charlie = [] from rfl),
    demo_cold_start]

/-- C3: the worked example: `recommend_movie(Alice)` is the title
`"The Matrix"` and `recommend_movie(Bob)` is the title `"Inception"`. -/
theorem recommend_movie_worked_example :
    recommend_movie demoState alice = RecResult.title "The Matrix"
    ∧ recommend_movie demoState bob = RecResult.title "Inception" := by
  refine ⟨by decide, by decide⟩

/-- C4: every user whose movie list is empty takes the cold-start path:
the result is the catalog movie of strictly highest average rating, first
in catalog insertion order among ties (`List.argmax` semantics), and the
absence value exactly when the catalog is empty. -/
theorem recommend_movie_cold_start_path (st : RatingRegister) (user : User)
    (h : st.get_user_movies user = []) :
    recommend_movie st user =
      (match List.argmax st.get_average_rating st.get_movies with
        | Option.none => RecResult.none
        | some m => RecResult.movie m)
    ∧ (recommend_movie st user = RecResult.none ↔ st.get_movies = []) := by
  have h1 : recommend_movie st user =
      (match List.argmax st.get_average_rating st.get_movies with
        | Option.none => RecResult.none
        | some m => RecResult.movie m) := by
    rw [recommend_movie, if_pos h, recommend_for_new_user, pyMax_eq_argmax]
  refine ⟨h1, ?_⟩
  rw [h1]
  rcases hm : List.argmax st.get_average_rating st.get_movies with _ | m
  · rw [List.argmax_eq_none] at hm
    simp [hm]
  · rw [← List.argmax_eq_none (f := st.get_average_rating)]
    rw [hm]
    constructor
    · intro hc
      cases hc
    · intro hc
      cases hc

theorem recommend_movie_cold_start_path_witness :
    demoState.get_user_movies charlie = []
    ∧ (recommend_movie demoState charlie =
        (match List.argmax demoState.get_average_rating demoState.get_movies with
          | Option.none => RecResult.none
          | some m => RecResult.movie m)
      ∧ (recommend_movie demoState charlie = RecResult.none ↔
          demoState.get_movies = [])) :=
  ⟨rfl, recommend_movie_cold_start_path demoState charlie rfl⟩

/-- C5: for a user with at least one rated movie, if every other known
user's dissimilarity score is infinite, no reviewer ever beats the initial
infinite best (the comparison is strict), so the result is the absence
value. -/
theorem recommend_movie_all_infinite (st : RatingRegister) (user : User)
    (h1 : st.get_user_movies user ≠ [])
    (h2 : ∀ r ∈ st.get_users, r.id ≠ user.id → calculate_similarity st user r = none) :
    recommend_movie st user = RecResult.none := by
  rw [recommend_movie, if_neg h1, recommend_for_existing_user,
    recommend_existing_fold_none st user st.get_users h2]

theorem recommend_movie_all_infinite_witness :
    noOverlapState.get_user_movies alice ≠ []
    ∧ recommend_movie noOverlapState alice = RecResult.none :=
  ⟨by decide, recommend_movie_all_infinite noOverlapState alice (by decide) (by decide)⟩

/-- C6: the best-unwatched-movie search is `argmax` of the reviewer's
rating over the reviewer's rated movies not rated by the user and rated
strictly above `0` (so a `0` rating is never selected, ties go to the
first movie in the reviewer's list, and the result is the absence value
exactly when no unwatched movie has a positive rating); any returned movie
is unwatched, positively rated, and maximises the reviewer's rating among
all unwatched movies. -/
theorem find_unwatched_movie_spec (st : RatingRegister) (user reviewer : User) :
    find_unwatched_movie st user reviewer =
      List.argmax (fun m => ratingValue st m reviewer.id)
        ((st.get_user_movies reviewer).filter
          (fun m => decide (m ∉ st.get_user_movies user) &&
            decide (0 < ratingValue st m reviewer.id)))
    ∧ (find_unwatched_movie st user reviewer = none ↔
        (st.get_user_movies reviewer).filter
          (fun m => decide (m ∉ st.get_user_movies user) &&
            decide (0 < ratingValue st m reviewer.id)) = [])
    ∧ (∀ mv, find_unwatched_movie st user reviewer = some mv →
        mv ∈ st.get_user_movies reviewer ∧ mv ∉ st.get_user_movies user ∧
        0 < ratingValue st mv reviewer.id ∧
        ∀ m2 ∈ st.get_user_movies reviewer, m2 ∉ st.get_user_movies user →
          ratingValue st m2 reviewer.id ≤ ratingValue st mv reviewer.id) := by
  have h1 := find_unwatched_movie_eq_argmax st user reviewer
  refine ⟨h1, ?_, ?_⟩
  · rw [h1, List.argmax_eq_none]
  · intro mv hmv
    rw [h1] at hmv
    have hmem : mv ∈ (st.get_user_movies reviewer).filter
        (fun m => decide (m ∉ st.get_user_movies user) &&
          decide (0 < ratingValue st m reviewer.id)) :=
      List.argmax_mem hmv
    rw [List.mem_filter] at hmem
    have hflt := hmem.2
    rw [Bool.and_eq_true, decide_eq_true_eq, decide_eq_true_eq] at hflt
    refine ⟨hmem.1, hflt.1, hflt.2, ?_⟩
    intro m2 hm2 hm2u
    by_cases hpos : 0 < ratingValue st m2 reviewer.id
    · have hm2f : m2 ∈ (st.get_user_movies reviewer).filter
          (fun m => decide (m ∉ st.get_user_movies user) &&
            decide (0 < ratingValue st m reviewer.id)) := by
        rw [List.mem_filter, Bool.and_eq_true, decide_eq_true_eq, decide_eq_true_eq]
        exact ⟨hm2, hm2u, hpos⟩
      exact List.le_of_mem_argmax hm2f hmv
    · omega

theorem find_unwatched_movie_spec_witness :
    (inception ∈ demoState.get_user_movies alice
      ∧ inception ∉ demoState.get_user_movies bob
      ∧ 0 < ratingValue demoState inception alice.id
      ∧ ∀ m2 ∈ demoState.get_user_movies alice, m2 ∉ demoState.get_user_movies bob →
          ratingValue demoState m2 alice.id ≤ ratingValue demoState inception alice.id) :=
  (find_unwatched_movie_spec demoState bob alice).2.2 inception (by decide)

/-- C7: in any state reached by a trace of `add_rating` calls,
`get_average_rating` is the arithmetic mean, over the users who rated the
movie, of the last value each of them wrote (the stored per-user entry is
exactly that last value), and it is `0` for a movie never passed to
`add_rating`. -/
theorem get_average_rating_spec (tr : List RatingEvent) (m : Movie) :
    (applyTrace emptyRegister tr).get_average_rating m = specAverage tr m
    ∧ (∀ uid, lookupA uid ((applyTrace emptyRegister tr).get_movie_ratings m) =
        lastRating tr uid m.id)
    ∧ ((∀ e ∈ tr, e.2.1.id ≠ m.id) →
        (applyTrace emptyRegister tr).get_average_rating m = 0) := by
  refine ⟨get_average_rating_applyTrace tr m, ?_, ?_⟩
  · intro uid
    rw [RatingRegister.get_movie_ratings]
    exact ratingEntry_applyTrace tr uid m.id
  · intro h
    rw [RatingRegister.get_average_rating, lookupA_movie_ratings_eq_none tr m.id h]
    simp [MovieRating.value]

theorem get_average_rating_spec_witness :
    (applyTrace emptyRegister demoTrace).get_average_rating titanic
      = specAverage demoTrace titanic
    ∧ lookupA bob.id ((applyTrace emptyRegister demoTrace).get_movie_ratings titanic)
      = lastRating demoTrace bob.id titanic.id
    ∧ (applyTrace emptyRegister demoTrace).get_average_rating ⟨4, "Ghost"⟩ = 0 :=
  ⟨(get_average_rating_spec demoTrace titanic).1,
   (get_average_rating_spec demoTrace titanic).2.1 bob.id,
   (get_average_rating_spec demoTrace ⟨4, "Ghost"⟩).2.2 (by decide)⟩

/-- C8: rating the same movie twice overwrites the stored rating with the
second value, while the user's movie list receives the movie twice (the
append is unconditional). -/
theorem add_rating_overwrite_and_duplicate (st : RatingRegister) (u : User) (m : Movie)
    (r1 r2 : MovieRating) (h : m ∉ st.get_user_movies u) :
    lookupA u.id (((st.add_rating u m r1).add_rating u m r2).get_movie_ratings m)
      = some r2
    ∧ (((st.add_rating u m r1).add_rating u m r2).get_user_movies u).count m = 2 := by
  constructor
  · rw [RatingRegister.get_movie_ratings, lookupA_movie_ratings_add, if_pos rfl,
      Option.getD_some, lookupA_setA_self]
  · rw [RatingRegister.get_user_movies, lookupA_user_movies_add, if_pos rfl,
      Option.getD_some, lookupA_user_movies_add, if_pos rfl, Option.getD_some]
    rw [List.count_append, List.count_append]
    rw [RatingRegister.get_user_movies] at h
    rw [List.count_eq_zero.mpr h]
    simp

theorem add_rating_overwrite_and_duplicate_witness :
    matrix ∉ emptyRegister.get_user_movies charlie
    ∧ (lookupA charlie.id
        (((emptyRegister.add_rating charlie matrix .ONE).add_rating charlie matrix
          .FIVE).get_movie_ratings matrix) = some .FIVE
      ∧ ((((emptyRegister.add_rating charlie matrix .ONE).add_rating charlie matrix
          .FIVE).get_user_movies charlie).count matrix = 2)) :=
  ⟨by decide,
   add_rating_overwrite_and_duplicate emptyRegister charlie matrix .ONE .FIVE (by decide)⟩

/-- C9: in every state reachable from the empty register, a (user, movie)
pair is present in the movie-to-user-to-rating map exactly when the movie
appears in that user's entry of the user-to-movies index, and `add_rating`
preserves this bidirectional consistency from any consistent state. -/
theorem store_bidirectional_consistency :
    (∀ st, Reachable st → Consistent st)
    ∧ (∀ st (u : User) (m : Movie) (r : MovieRating),
        Consistent st → Consistent (st.add_rating u m r)) := by
  constructor
  · rintro st ⟨tr, rfl⟩
    exact consistent_applyTrace emptyRegister tr consistent_empty
  · intro st u m r h
    exact consistent_add st u m r h

theorem store_bidirectional_consistency_witness :
    ratedPair demoState alice.id titanic.id = indexedPair demoState alice.id titanic.id :=
  store_bidirectional_consistency.1 demoState ⟨demoTrace, rfl⟩ alice.id titanic.id

/-- C10: in every reachable state, every movie id present in
`movie_ratings` has a non-empty per-user dictionary, so the divisor in
`get_average_rating` is never zero. -/
theorem store_division_safe :
    ∀ st, Reachable st →
      (∀ mid mm, lookupA mid st.movie_ratings = some mm → mm ≠ [])
      ∧ (∀ (m : Movie) mm, lookupA m.id st.movie_ratings = some mm →
          ((mm.length : ℚ) ≠ 0)) := by
  rintro st ⟨tr, rfl⟩
  have h := nonemptyMovieMaps_applyTrace emptyRegister tr nonemptyMovieMaps_empty
  refine ⟨h, ?_⟩
  intro m mm hmm
  have hne : mm ≠ [] := h m.id mm hmm
  have hlen : mm.length ≠ 0 := by
    simpa [List.length_eq_zero] using hne
  exact_mod_cast hlen

theorem store_division_safe_witness :
    ([(1, MovieRating.TWO), (2, MovieRating.THREE)] : List (Nat × MovieRating)) ≠ []
    ∧ ((([(1, MovieRating.TWO), (2, MovieRating.THREE)] :
        List (Nat × MovieRating)).length : ℚ) ≠ 0) :=
  ⟨(store_division_safe demoState ⟨demoTrace, rfl⟩).1 titanic.id _ (by decide),
   (store_division_safe demoState ⟨demoTrace, rfl⟩).2 titanic _ (by decide)⟩
